import Mathlib

/-!
Verification of the lang-memgpt memory agent core.

This file shallowly embeds the operational core of `lang_memgpt` — the
conversation state, the `route_tools` routing rule, the `add_messages`
reducer, the memory tools (`save_recall_memory`, `search_memory`,
`fetch_core_memories`, `store_core_memory`), the `load_memories` node and
the vector-store interface they use — and proves or refutes the frozen
claims about them.

Modelling conventions:
* Machine state that Python mutates (the vector index, the cached client
  handles) is passed explicitly.
* Fallible Python code (raising exceptions) is modelled with `Option`.
* External collaborators (embedding provider, similarity ranking of the
  vector backend, the tokenizer) are parameters of the functions that call
  them.
* Backend calls performed by a tool are recorded in an explicit effect
  list, in the order the source issues them.
-/

namespace LangMemGpt

/-- Tool-call request carried by an assistant message (name, arguments,
call id). -/
structure ToolCall where
  name : String
  args : String
  callId : String
deriving Repr, DecidableEq

/-- Dialogue message: role, content, unique id, and the tool-call requests
it carries (empty for non-assistant or plain messages). -/
structure Message where
  id : String
  role : String
  content : String
  tool_calls : List ToolCall
deriving Repr, DecidableEq

/-- Conversation state from `_schemas.State`: message log plus the two
memory slots. -/
structure AgentState where
  messages : List Message
  core_memories : List String
  recall_memories : List String
deriving Repr, DecidableEq

/-- The `add_messages` reducer on the `messages` channel: each incoming
message replaces the existing message with the same id, and is appended
otherwise. -/
def addMessages (left right : List Message) : List Message :=
  right.foldl
    (fun acc m =>
      if acc.any (fun x => x.id = m.id) then
        acc.map (fun x => if x.id = m.id then m else x)
      else acc ++ [m])
    left

/-- Embedding of `route_tools` (graph.py:307-319): inspect the last
message; `some "tools"` when it carries tool calls, `some "__end__"`
otherwise; `none` models the `IndexError` raised by `state["messages"][-1]`
on an empty log. -/
def routeTools (s : AgentState) : Option String :=
  (s.messages.getLast?).map
    (fun m => if m.tool_calls.isEmpty then "__end__" else "tools")

/-!
JSON layer. `store_core_memory` serializes the core-memory list with
`json.dumps({"memories": memories})` (graph.py:172) and
`fetch_core_memories` recovers it with `json.loads(payload)["memories"]`
(graph.py:143). We embed the exact textual serialization Python produces
(default separators, `ensure_ascii=True`) and a parser that models
`json.loads` restricted to the grammar these payloads live in: a
single-key string-list object. Lone UTF-16 surrogate escapes — which a
Python `str` can hold but a Lean `Char` cannot — are outside the model and
rejected by the parser; `json.dumps` never emits them for valid text. -/

/-- Lowercase hexadecimal digit, as emitted by Python's `\uXXXX` escapes. -/
def hexDigitChar (d : Nat) : Char :=
  match d with
  | 0 => '0' | 1 => '1' | 2 => '2' | 3 => '3' | 4 => '4'
  | 5 => '5' | 6 => '6' | 7 => '7' | 8 => '8' | 9 => '9'
  | 10 => 'a' | 11 => 'b' | 12 => 'c' | 13 => 'd' | 14 => 'e' | _ => 'f'

/-- Value of one hexadecimal digit (`json.loads` accepts both cases). -/
def hexVal (c : Char) : Option Nat :=
  if '0' ≤ c ∧ c ≤ '9' then some (c.toNat - 48)
  else if 'a' ≤ c ∧ c ≤ 'f' then some (c.toNat - 87)
  else if 'A' ≤ c ∧ c ≤ 'F' then some (c.toNat - 55)
  else none

/-- Four-digit hexadecimal rendering of `n % 0x10000`. -/
def hex4 (n : Nat) : List Char :=
  [hexDigitChar (n / 4096 % 16), hexDigitChar (n / 256 % 16),
   hexDigitChar (n / 16 % 16), hexDigitChar (n % 16)]

/-- One `\uXXXX` escape sequence. -/
def uEscape (n : Nat) : List Char := '\\' :: 'u' :: hex4 n

/-- Escaping of one character exactly as Python's `json.dumps` with its
default `ensure_ascii=True`: `"` and `\` get two-character escapes,
printable ASCII is copied, the five short control escapes are used where
defined, and every other character becomes `\uXXXX`, with a UTF-16
surrogate pair for code points above `0xFFFF`. -/
def encodeChar (c : Char) : List Char :=
  if c = '"' then ['\\', '"']
  else if c = '\\' then ['\\', '\\']
  else if 0x20 ≤ c.toNat ∧ c.toNat ≤ 0x7e then [c]
  else if c = '\x08' then ['\\', 'b']
  else if c = '\x09' then ['\\', 't']
  else if c = '\x0a' then ['\\', 'n']
  else if c = '\x0c' then ['\\', 'f']
  else if c = '\x0d' then ['\\', 'r']
  else if c.toNat < 0x10000 then uEscape c.toNat
  else
    uEscape (0xd800 + (c.toNat - 0x10000) / 0x400) ++
      uEscape (0xdc00 + (c.toNat - 0x10000) % 0x400)

/-- Serialized JSON string literal for the character list `s`. -/
def encodeStringChars (s : List Char) : List Char :=
  '"' :: ((s.map encodeChar).flatten ++ ['"'])

/-- Array items joined by `", "`, Python's default item separator. -/
def encodeItems : List (List Char) → List Char
  | [] => []
  | [s] => encodeStringChars s
  | s :: rest => encodeStringChars s ++ ',' :: ' ' :: encodeItems rest

/-- Character stream of `json.dumps({"memories": ms})`. -/
def dumpsMemoriesChars (ms : List (List Char)) : List Char :=
  "\x7b\"memories\": [".data ++ (encodeItems ms ++ "]\x7d".data)

/-- Embedding of `json.dumps({"memories": ms})` (graph.py:172). -/
def dumpsMemories (ms : List String) : String :=
  String.mk (dumpsMemoriesChars (ms.map String.data))

/-- JSON insignificant whitespace. -/
def isJsonWs (c : Char) : Bool := c = ' ' ∨ c = '\t' ∨ c = '\n' ∨ c = '\r'

/-- Skip insignificant whitespace between JSON tokens. -/
def skipWs (cs : List Char) : List Char := cs.dropWhile isJsonWs

/-- Reassemble a code point from a UTF-16 surrogate pair. -/
def combineSurrogates (hi lo : Nat) : Nat :=
  0x10000 + ((hi - 0xd800) * 0x400 + (lo - 0xdc00))

/-- Read four hexadecimal digits and return their value with the rest of
the input. -/
def hex4Val : List Char → Option (Nat × List Char)
  | a :: b :: c :: d :: rest =>
    match hexVal a, hexVal b, hexVal c, hexVal d with
    | some ha, some hb, some hc, some hd =>
      some (ha * 4096 + (hb * 256 + (hc * 16 + hd)), rest)
    | _, _, _, _ => none
  | _ => none

/-- Decode what follows `\u`: four hex digits, combined with a second
escaped code unit when the first is a high surrogate. A lone surrogate is
rejected (outside the model, see above). -/
def decodeUEscape (cs : List Char) : Option (Char × List Char) :=
  match hex4Val cs with
  | none => none
  | some (n, rest) =>
    if 0xd800 ≤ n ∧ n < 0xdc00 then
      match rest with
      | '\\' :: 'u' :: rest2 =>
        match hex4Val rest2 with
        | none => none
        | some (m, rest3) =>
          if 0xdc00 ≤ m ∧ m < 0xe000 then
            some (Char.ofNat (combineSurrogates n m), rest3)
          else none
      | _ => none
    else if 0xdc00 ≤ n ∧ n < 0xe000 then none
    else some (Char.ofNat n, rest)

/-- Decode one escape sequence (the backslash already consumed). -/
def decodeEscape : List Char → Option (Char × List Char)
  | [] => none
  | e :: rest =>
    if e = '"' then some ('"', rest)
    else if e = '\\' then some ('\\', rest)
    else if e = '/' then some ('/', rest)
    else if e = 'b' then some ('\x08', rest)
    else if e = 'f' then some ('\x0c', rest)
    else if e = 'n' then some ('\x0a', rest)
    else if e = 'r' then some ('\x0d', rest)
    else if e = 't' then some ('\x09', rest)
    else if e = 'u' then decodeUEscape rest
    else none

/-- Fueled parser for the body of a JSON string literal (the opening
quote already consumed), returning the decoded characters and the rest of
the input. Implements `json.loads` string semantics in strict mode: the
standard escapes, `\uXXXX` with surrogate-pair combination, and rejection
of raw control characters. Each step consumes at least one character, so
the input length is always enough fuel. -/
def parseStringBodyAux : Nat → List Char → Option (List Char × List Char)
  | 0, _ => none
  | fuel + 1, cs =>
    match cs with
    | [] => none
    | c :: rest =>
      if c = '"' then some ([], rest)
      else if c = '\\' then
        match decodeEscape rest with
        | none => none
        | some (ch, rest2) =>
          (parseStringBodyAux fuel rest2).map (fun p => (ch :: p.1, p.2))
      else if c.toNat < 0x20 then none
      else (parseStringBodyAux fuel rest).map (fun p => (c :: p.1, p.2))

/-- Parser for the body of a JSON string literal. -/
def parseStringBody (cs : List Char) : Option (List Char × List Char) :=
  parseStringBodyAux cs.length cs

/-- Parser for the items of a nonempty JSON string array, positioned at
the first item, consuming the closing `]`. Fueled by an upper bound on the
item count. -/
def parseElems : Nat → List Char → Option (List (List Char) × List Char)
  | 0, _ => none
  | fuel + 1, cs =>
    match skipWs cs with
    | '"' :: rest =>
      match parseStringBody rest with
      | none => none
      | some (s, rest2) =>
        match skipWs rest2 with
        | ']' :: rest3 => some ([s], rest3)
        | ',' :: rest3 => (parseElems fuel rest3).map (fun p => (s :: p.1, p.2))
        | _ => none
    | _ => none

/-- Parser for a JSON string array body (the opening `[` already
consumed), consuming the closing `]`. -/
def parseArrayBody (cs : List Char) : Option (List (List Char) × List Char) :=
  match skipWs cs with
  | ']' :: rest => some ([], rest)
  | cs2 => parseElems cs2.length cs2

/-- Parser modelling `json.loads(payload)["memories"]` on the payloads the
program stores: a one-key object whose key must be `"memories"` and whose
value is an array of strings. `none` models the exception Python raises on
malformed payloads or a missing key. -/
def parseMemoriesChars (cs : List Char) : Option (List (List Char)) :=
  match skipWs cs with
  | '\x7b' :: rest =>
    match skipWs rest with
    | '"' :: rest2 =>
      match parseStringBody rest2 with
      | none => none
      | some (key, rest3) =>
        match skipWs rest3 with
        | ':' :: rest4 =>
          match skipWs rest4 with
          | '[' :: rest5 =>
            match parseArrayBody rest5 with
            | none => none
            | some (items, rest6) =>
              match skipWs rest6 with
              | '\x7d' :: rest7 =>
                if key = "memories".data ∧ skipWs rest7 = [] then some items
                else none
              | _ => none
          | _ => none
        | _ => none
    | _ => none
  | _ => none

/-- String-level wrapper: `json.loads(payload)["memories"]`
(graph.py:143). -/
def parseMemoriesPayload (s : String) : Option (List String) :=
  (parseMemoriesChars s.data).map (fun items => items.map String.mk)

/-- Round trip `Char.ofNat (Char.toNat c) = c`. -/
theorem charOfNat_toNat (c : Char) : Char.ofNat c.toNat = c := by
  rw [Char.ofNat, dif_pos (show c.toNat.isValidChar from c.valid)]
  rfl

/-- Decoding a hexadecimal digit undoes encoding it. -/
theorem hexVal_hexDigitChar {d : Nat} (h : d < 16) :
    hexVal (hexDigitChar d) = some d := by
  interval_cases d <;> decide

/-- Skipping whitespace drops a leading space. -/
theorem skipWs_space (xs : List Char) : skipWs (' ' :: xs) = skipWs xs := by
  simp [skipWs, List.dropWhile_cons, isJsonWs]

/-- Skipping whitespace is the identity when the head is not whitespace. -/
theorem skipWs_not_ws {c : Char} (h : isJsonWs c = false) (xs : List Char) :
    skipWs (c :: xs) = c :: xs := by
  simp [skipWs, List.dropWhile_cons, h]

/-- Reading back four emitted hexadecimal digits recovers the value. -/
theorem hex4Val_hex4 {n : Nat} (h : n < 0x10000) (cs : List Char) :
    hex4Val (hex4 n ++ cs) = some (n, cs) := by
  have e1 : hexVal (hexDigitChar (n / 4096 % 16)) = some (n / 4096 % 16) :=
    hexVal_hexDigitChar (Nat.mod_lt _ (by norm_num))
  have e2 : hexVal (hexDigitChar (n / 256 % 16)) = some (n / 256 % 16) :=
    hexVal_hexDigitChar (Nat.mod_lt _ (by norm_num))
  have e3 : hexVal (hexDigitChar (n / 16 % 16)) = some (n / 16 % 16) :=
    hexVal_hexDigitChar (Nat.mod_lt _ (by norm_num))
  have e4 : hexVal (hexDigitChar (n % 16)) = some (n % 16) :=
    hexVal_hexDigitChar (Nat.mod_lt _ (by norm_num))
  have hn : n / 4096 % 16 * 4096 +
      (n / 256 % 16 * 256 + (n / 16 % 16 * 16 + n % 16)) = n := by omega
  simp [hex4, hex4Val, e1, e2, e3, e4, hn]

/-- Decoding the escape of a basic-plane character recovers it. -/
theorem decodeUEscape_bmp {c : Char} (h : c.toNat < 0x10000) (cs : List Char) :
    decodeUEscape (hex4 c.toNat ++ cs) = some (c, cs) := by
  have hv : c.toNat < 55296 ∨ (57343 < c.toNat ∧ c.toNat < 1114112) := c.valid
  have hs1 : ¬(0xd800 ≤ c.toNat ∧ c.toNat < 0xdc00) := by omega
  have hs2 : ¬(0xdc00 ≤ c.toNat ∧ c.toNat < 0xe000) := by omega
  simp [decodeUEscape, hex4Val_hex4 h, hs1, hs2, charOfNat_toNat]

/-- Decoding the surrogate-pair escape of an astral character recovers
it. -/
theorem decodeUEscape_astral {c : Char} (h : 0x10000 ≤ c.toNat)
    (cs : List Char) :
    decodeUEscape (hex4 (0xd800 + (c.toNat - 0x10000) / 0x400) ++
      ('\\' :: 'u' :: (hex4 (0xdc00 + (c.toNat - 0x10000) % 0x400) ++ cs))) =
      some (c, cs) := by
  have hv : c.toNat < 55296 ∨ (57343 < c.toNat ∧ c.toNat < 1114112) := c.valid
  have hcu : c.toNat < 1114112 := by omega
  have hdiv : (c.toNat - 0x10000) / 0x400 < 0x400 := by omega
  have hmod : (c.toNat - 0x10000) % 0x400 < 0x400 := by omega
  have hhiRange : 0xd800 ≤ 0xd800 + (c.toNat - 0x10000) / 0x400 ∧
      0xd800 + (c.toNat - 0x10000) / 0x400 < 0xdc00 := by omega
  have hloRange : 0xdc00 ≤ 0xdc00 + (c.toNat - 0x10000) % 0x400 ∧
      0xdc00 + (c.toNat - 0x10000) % 0x400 < 0xe000 := by omega
  have hcomb : combineSurrogates (0xd800 + (c.toNat - 0x10000) / 0x400)
      (0xdc00 + (c.toNat - 0x10000) % 0x400) = c.toNat := by
    simp only [combineSurrogates]
    omega
  have hb1 : (0xd800 + (c.toNat - 0x10000) / 0x400) < 0x10000 := by omega
  have hb2 : (0xdc00 + (c.toNat - 0x10000) % 0x400) < 0x10000 := by omega
  rw [decodeUEscape.eq_def]
  rw [hex4Val_hex4 hb1]
  simp only [hhiRange, and_self, if_true]
  rw [hex4Val_hex4 hb2]
  simp only [hloRange, and_self, if_true, hcomb, charOfNat_toNat]

/-- Decoding an escape whose selector is `u` is `\uXXXX` decoding. -/
theorem decodeEscape_u (rest : List Char) :
    decodeEscape ('u' :: rest) = decodeUEscape rest := rfl

/-- Either a character is emitted literally, or its escape sequence
decodes back to it. -/
theorem encodeChar_cases (c : Char) (cs : List Char) :
    (encodeChar c = [c] ∧ c ≠ '"' ∧ c ≠ '\\' ∧ ¬(c.toNat < 0x20)) ∨
    (∃ suffix, encodeChar c = '\\' :: suffix ∧
      decodeEscape (suffix ++ cs) = some (c, cs)) := by
  by_cases h1 : c = '"'
  · exact Or.inr ⟨['"'], by subst h1; rfl, by subst h1; rfl⟩
  by_cases h2 : c = '\\'
  · exact Or.inr ⟨['\\'], by subst h2; rfl, by subst h2; rfl⟩
  by_cases h3 : 0x20 ≤ c.toNat ∧ c.toNat ≤ 0x7e
  · refine Or.inl ⟨?_, h1, h2, by omega⟩
    unfold encodeChar
    rw [if_neg h1, if_neg h2, if_pos h3]
  by_cases h4 : c = '\x08'
  · exact Or.inr ⟨['b'], by subst h4; rfl, by subst h4; rfl⟩
  by_cases h5 : c = '\x09'
  · exact Or.inr ⟨['t'], by subst h5; rfl, by subst h5; rfl⟩
  by_cases h6 : c = '\x0a'
  · exact Or.inr ⟨['n'], by subst h6; rfl, by subst h6; rfl⟩
  by_cases h7 : c = '\x0c'
  · exact Or.inr ⟨['f'], by subst h7; rfl, by subst h7; rfl⟩
  by_cases h8 : c = '\x0d'
  · exact Or.inr ⟨['r'], by subst h8; rfl, by subst h8; rfl⟩
  by_cases h9 : c.toNat < 0x10000
  · refine Or.inr ⟨'u' :: hex4 c.toNat, ?_, ?_⟩
    · unfold encodeChar
      rw [if_neg h1, if_neg h2, if_neg h3, if_neg h4, if_neg h5, if_neg h6,
        if_neg h7, if_neg h8, if_pos h9]
      rfl
    · rw [List.cons_append, decodeEscape_u, decodeUEscape_bmp h9]
  · refine Or.inr ⟨'u' :: (hex4 (0xd800 + (c.toNat - 0x10000) / 0x400) ++
      ('\\' :: 'u' :: hex4 (0xdc00 + (c.toNat - 0x10000) % 0x400))), ?_, ?_⟩
    · unfold encodeChar
      rw [if_neg h1, if_neg h2, if_neg h3, if_neg h4, if_neg h5, if_neg h6,
        if_neg h7, if_neg h8, if_neg h9]
      rfl
    · rw [List.cons_append, decodeEscape_u, List.append_assoc]
      exact decodeUEscape_astral (by omega) cs

/-- One Nat of fuel per decoded character suffices to parse an encoded
string body back to the original characters. -/
theorem parseStringBodyAux_enc (s : List Char) :
    ∀ (fuel : Nat) (rest : List Char), s.length < fuel →
      parseStringBodyAux fuel ((s.map encodeChar).flatten ++ '"' :: rest) =
        some (s, rest) := by
  induction s with
  | nil =>
    intro fuel rest h
    obtain ⟨f, rfl⟩ : ∃ f, fuel = f + 1 := ⟨fuel - 1, by omega⟩
    simp [parseStringBodyAux]
  | cons c s ih =>
    intro fuel rest h
    obtain ⟨f, rfl⟩ : ∃ f, fuel = f + 1 := ⟨fuel - 1, by omega⟩
    have hlen : s.length < f := by
      simp only [List.length_cons] at h
      omega
    rcases encodeChar_cases c ((s.map encodeChar).flatten ++ '"' :: rest) with
      ⟨hEnc, hq, hb, hc⟩ | ⟨suffix, hEnc, hDec⟩
    · simp only [List.map_cons, List.flatten_cons, hEnc, List.append_assoc,
        List.singleton_append]
      simp [parseStringBodyAux, hq, hb, hc, ih f rest hlen]
    · simp only [List.map_cons, List.flatten_cons, hEnc, List.append_assoc,
        List.cons_append, List.nil_append]
      simp [parseStringBodyAux, hDec, ih f rest hlen]

/-- Every character is encoded to at least one character. -/
theorem encodeChar_length_pos (c : Char) : 1 ≤ (encodeChar c).length := by
  unfold encodeChar
  split_ifs <;> simp [uEscape, hex4]

/-- An encoded string body is at least as long as the source. -/
theorem length_le_encBody (s : List Char) :
    s.length ≤ ((s.map encodeChar).flatten).length := by
  induction s with
  | nil => simp
  | cons c s ih =>
    have := encodeChar_length_pos c
    simp only [List.map_cons, List.flatten_cons, List.length_append,
      List.length_cons]
    omega

/-- Parsing an encoded string body (followed by its closing quote)
returns exactly the source characters. -/
theorem parseStringBody_enc (s : List Char) (rest : List Char) :
    parseStringBody ((s.map encodeChar).flatten ++ '"' :: rest) =
      some (s, rest) := by
  apply parseStringBodyAux_enc
  have := length_le_encBody s
  simp only [List.length_append, List.length_cons]
  omega

/-- Item parsing ignores a leading space. -/
theorem parseElems_space (fuel : Nat) (xs : List Char) :
    parseElems fuel (' ' :: xs) = parseElems fuel xs := by
  cases fuel with
  | zero => rfl
  | succ f => simp [parseElems, skipWs_space]

/-- Encoded items are at least as many characters as items. -/
theorem length_encodeItems_ge (ms : List (List Char)) :
    ms.length ≤ (encodeItems ms).length := by
  induction ms with
  | nil => simp [encodeItems]
  | cons a tl ih =>
    cases tl with
    | nil => simp [encodeItems, encodeStringChars]
    | cons b tl2 =>
      simp only [encodeItems, encodeStringChars, List.length_cons,
        List.length_append] at *
      omega

/-- Item lists longer than the fuel never arise: one unit of fuel per
item suffices to parse encoded items back. -/
theorem parseElems_enc (ms : List (List Char)) :
    ∀ (fuel : Nat) (rest : List Char), ms ≠ [] → ms.length ≤ fuel →
      parseElems fuel (encodeItems ms ++ ']' :: rest) = some (ms, rest) := by
  induction ms with
  | nil => intro fuel rest hne; exact absurd rfl hne
  | cons a tl ih =>
    intro fuel rest _ hf
    obtain ⟨f, rfl⟩ : ∃ f, fuel = f + 1 := ⟨fuel - 1, by simp at hf; omega⟩
    cases tl with
    | nil =>
      have h1 : encodeItems [a] ++ ']' :: rest =
          '"' :: ((a.map encodeChar).flatten ++ '"' :: ']' :: rest) := by
        simp [encodeItems, encodeStringChars]
      rw [h1]
      simp [parseElems, skipWs_not_ws (show isJsonWs '"' = false by decide),
        skipWs_not_ws (show isJsonWs ']' = false by decide),
        parseStringBody_enc]
    | cons b tl2 =>
      have h1 : encodeItems (a :: b :: tl2) ++ ']' :: rest =
          '"' :: ((a.map encodeChar).flatten ++ '"' :: ',' :: ' ' ::
            (encodeItems (b :: tl2) ++ ']' :: rest)) := by
        simp [encodeItems, encodeStringChars]
      rw [h1]
      have hrec : parseElems f (' ' :: (encodeItems (b :: tl2) ++ ']' :: rest)) =
          some (b :: tl2, rest) := by
        rw [parseElems_space]
        exact ih f rest (by simp) (by simp at hf ⊢; omega)
      simp [parseElems, skipWs_not_ws (show isJsonWs '"' = false by decide),
        skipWs_not_ws (show isJsonWs ',' = false by decide),
        parseStringBody_enc, hrec]

/-- The head of a nonempty encoded item list is a quote. -/
theorem encodeItems_cons_head (a : List Char) (tl : List (List Char)) :
    ∃ x, encodeItems (a :: tl) = '"' :: x := by
  cases tl with
  | nil => exact ⟨_, rfl⟩
  | cons b tl2 => exact ⟨_, rfl⟩

/-- Parsing an encoded array body returns exactly the source items. -/
theorem parseArrayBody_enc (ms : List (List Char)) (rest : List Char) :
    parseArrayBody (encodeItems ms ++ ']' :: rest) = some (ms, rest) := by
  cases ms with
  | nil =>
    simp [encodeItems, parseArrayBody,
      skipWs_not_ws (show isJsonWs ']' = false by decide)]
  | cons a tl =>
    obtain ⟨x, hx⟩ := encodeItems_cons_head a tl
    have hxfull : encodeItems (a :: tl) ++ ']' :: rest =
        '"' :: (x ++ ']' :: rest) := by rw [hx]; rfl
    have hlen : (a :: tl).length ≤ ('"' :: (x ++ ']' :: rest)).length := by
      have h1 := length_encodeItems_ge (a :: tl)
      rw [hx] at h1
      simp at h1 ⊢
      omega
    rw [hxfull]
    have harr : parseArrayBody ('"' :: (x ++ ']' :: rest)) =
        parseElems ('"' :: (x ++ ']' :: rest)).length
          ('"' :: (x ++ ']' :: rest)) := by
      simp [parseArrayBody, skipWs_not_ws (show isJsonWs '"' = false by decide)]
    rw [harr, ← hxfull]
    exact parseElems_enc _ _ _ (by simp) (by rw [hxfull]; exact hlen)

/-- Round trip at the character level: parsing the serialized
`{"memories": ...}` object recovers the item list. -/
theorem parseMemoriesChars_enc (ms : List (List Char)) :
    parseMemoriesChars (dumpsMemoriesChars ms) = some ms := by
  have hshape : dumpsMemoriesChars ms =
      '\x7b' :: '"' :: 'm' :: 'e' :: 'm' :: 'o' :: 'r' :: 'i' :: 'e' :: 's' ::
        '"' :: ':' :: ' ' :: '[' :: (encodeItems ms ++ [']', '\x7d']) := rfl
  have h2 : parseMemoriesChars ('\x7b' :: '"' :: 'm' :: 'e' :: 'm' :: 'o' ::
      'r' :: 'i' :: 'e' :: 's' :: '"' :: ':' :: ' ' :: '[' ::
      (encodeItems ms ++ [']', '\x7d'])) =
      (match parseArrayBody (encodeItems ms ++ [']', '\x7d']) with
      | none => none
      | some (items, rest6) =>
        match skipWs rest6 with
        | '\x7d' :: rest7 =>
          if "memories".data = "memories".data ∧ skipWs rest7 = [] then
            some items
          else none
        | _ => none) := rfl
  rw [hshape, h2, parseArrayBody_enc ms ['\x7d']]
  rfl

/-- Round trip of the payload through `json.dumps` and `json.loads`:
what `store_core_memory` serializes, `fetch_core_memories` parses back
unchanged. -/
theorem parseMemoriesPayload_dumps (ms : List String) :
    parseMemoriesPayload (dumpsMemories ms) = some ms := by
  have hdata : (dumpsMemories ms).data =
      dumpsMemoriesChars (ms.map String.data) := rfl
  rw [parseMemoriesPayload, hdata, parseMemoriesChars_enc]
  have he : (fun l => String.mk l) ∘ String.data = id := funext fun s => rfl
  simp [List.map_map, he]

/-!
Vector store model: the slice of the Pinecone index interface the program
uses (`upsert`, `fetch`, `query` with a metadata equality filter), over
one namespace. -/

/-- Metadata attached to an upserted record (graph.py:76-82, 171-177).
The Python dict keys are the constants `PAYLOAD_KEY`, `PATH_KEY`,
`TIMESTAMP_KEY`, `TYPE_KEY` and the literal `"user_id"`; the keys are
fixed distinct strings, so the dict is embedded as a structure with one
field per key. -/
structure Metadata where
  payload : String
  path : String
  timestamp : Nat
  type_ : String
  user_id : String
deriving Repr, DecidableEq

/-- One stored record: embedding vector plus metadata. -/
structure VRecord where
  values : List Rat
  metadata : Metadata
deriving Repr, DecidableEq

/-- The vector index, as an association of record ids to records. -/
abbrev VectorStore := List (String × VRecord)

/-- Backend upsert: replace the record with the same id, or add it. -/
def upsertRecord (st : VectorStore) (id : String) (r : VRecord) :
    VectorStore :=
  if st.any (fun p => p.1 = id) then
    st.map (fun p => if p.1 = id then (id, r) else p)
  else st ++ [(id, r)]

/-- Backend fetch by id (`index.fetch`); `none` when absent, which the
program reads as an empty `vectors` response. -/
def fetchRecord (st : VectorStore) (id : String) : Option VRecord :=
  (st.find? (fun p => p.1 = id)).map (fun p => p.2)

/-- Modelled from the spec: `lang_memgpt/_constants.py` is imported by
graph.py but absent from the source tree. Spec section 3 fixes the key
convention this constant implements: the core-memory key is a
deterministic, collision-free function of `user_id`, under a shared
key-prefix convention. -/
def PATCH_PATH (user_id : String) : String := "user/" ++ user_id ++ "/core"

/-- Modelled from the spec: the recall-entry key (`INSERT_PATH` in
`_constants.py`, absent from the source tree) combines `user_id` with a
fresh per-call event id, under the shared key-prefix convention. -/
def INSERT_PATH (user_id event_id : String) : String :=
  "user/" ++ user_id ++ "/recall/" ++ event_id

/-- Backend calls a tool performs, in program order. -/
inductive Effect
  | embedCall (text : String)
  | queryCall (user_id : String) (type_ : String) (top_k : Int)
  | fetchCall (id : String)
  | upsertCall (id : String)
deriving Repr, DecidableEq

/-- The metadata equality filter of `index.query` (graph.py:110-113):
`{"user_id": {"$eq": uid}, TYPE_KEY: {"$eq": "recall"}}`. -/
structure MdFilter where
  user_id : String
  type_ : String
deriving Repr, DecidableEq

/-- A metadata dict satisfies the equality filter. -/
def matchesFilter (f : MdFilter) (md : Metadata) : Bool :=
  md.user_id = f.user_id ∧ md.type_ = f.type_

/-- Ranking function of the backend: given the query vector, it orders
(and may cut) the filtered candidates by similarity. It is the external
collaborator's behaviour, so it is a parameter. -/
abbrev Ranking := List Rat → List (String × VRecord) → List (String × VRecord)

/-- A ranking only reorders or drops candidates, never invents records:
the documented contract of a filtered similarity query. -/
def SelectsFrom (rank : Ranking) : Prop :=
  ∀ v l p, p ∈ rank v l → p ∈ l

/-- Backend similarity query: up to `top_k` of the records matching the
metadata filter, in the backend's similarity order. -/
def queryIndex (rank : Ranking) (vec : List Rat) (st : VectorStore)
    (f : MdFilter) (top_k : Int) : List (String × VRecord) :=
  (rank vec (st.filter (fun p => matchesFilter f p.2.metadata))).take top_k.toNat

/-- Record built by `save_recall_memory` (graph.py:72-84). -/
def saveRecallRecord (uid event_id memory : String) (vec : List Rat)
    (now : Nat) : VRecord :=
  { values := vec,
    metadata := { payload := memory, path := INSERT_PATH uid event_id,
                  timestamp := now, type_ := "recall", user_id := uid } }

/-- Embedding of `save_recall_memory` (graph.py:54-89): embed the text,
upsert one record under the insert path, return the memory text. `embed`
is the embedding provider, `event_id` the fresh `uuid4`, `now` the
clock. -/
def saveRecallMemory (embed : String → List Rat) (st : VectorStore)
    (uid event_id memory : String) (now : Nat) :
    String × VectorStore × List Effect :=
  let vector := embed memory
  let path := INSERT_PATH uid event_id
  (memory,
    upsertRecord st path (saveRecallRecord uid event_id memory vector now),
    [Effect.embedCall memory, Effect.upsertCall path])

/-- The filter `search_memory` passes to `index.query`. -/
def searchFilter (uid : String) : MdFilter :=
  { user_id := uid, type_ := "recall" }

/-- The match list of the `search_memory` query. -/
def searchMemoryMatches (rank : Ranking) (embed : String → List Rat)
    (st : VectorStore) (uid query : String) (top_k : Int) :
    List (String × VRecord) :=
  queryIndex rank (embed query) st (searchFilter uid) top_k

/-- Embedding of `search_memory` (graph.py:93-122): embed the query,
run the filtered similarity query, return each match's payload text. -/
def searchMemory (rank : Ranking) (embed : String → List Rat)
    (st : VectorStore) (uid query : String) (top_k : Int) :
    List String × List Effect :=
  ((searchMemoryMatches rank embed st uid query top_k).map
      (fun p => p.2.metadata.payload),
    [Effect.embedCall query, Effect.queryCall uid "recall" top_k])

/-- Embedding of `fetch_core_memories` (graph.py:126-144): fetch the one
record at the patch path; an absent record means the empty list; a stored
payload that fails to parse raises (`none`). -/
def fetchCoreMemories (st : VectorStore) (uid : String) :
    Option (String × List String) :=
  let path := PATCH_PATH uid
  match fetchRecord st path with
  | none => some (path, [])
  | some doc =>
    match parseMemoriesPayload doc.metadata.payload with
    | none => none
    | some ms => some (path, ms)

/-- Record written back by `store_core_memory` (graph.py:167-179): zero
vector, re-serialized list — and, as in the source, the type tag
`TYPE_KEY: "recall"` (graph.py:175) even though this is the core-memory
record. -/
def storeCoreRecord (uid : String) (ms : List String) (now : Nat) :
    VRecord :=
  { values := List.replicate 768 0,
    metadata := { payload := dumpsMemories ms, path := PATCH_PATH uid,
                  timestamp := now, type_ := "recall", user_id := uid } }

/-- Embedding of `store_core_memory` (graph.py:148-184): fetch the
current list, either replace in place — rejecting out-of-range indices
without writing — or prepend, then upsert the re-serialized record.
Returns the tool's reply, the updated store, and the backend calls
made. -/
def storeCoreMemory (st : VectorStore) (uid memory : String)
    (index : Option Int) (now : Nat) :
    Option (String × VectorStore × List Effect) :=
  match fetchCoreMemories st uid with
  | none => none
  | some (path, memories) =>
    match index with
    | some i =>
      if i < 0 ∨ (memories.length : Int) ≤ i then
        some ("Error: Index out of bounds.", st, [Effect.fetchCall path])
      else
        some ("Memory stored.",
          upsertRecord st path (storeCoreRecord uid (memories.set i.toNat memory) now),
          [Effect.fetchCall path, Effect.upsertCall path])
    | none =>
      some ("Memory stored.",
        upsertRecord st path (storeCoreRecord uid (memory :: memories) now),
        [Effect.fetchCall path, Effect.upsertCall path])

/-- Process-level state for `_utils.py`: the `lru_cache` slot of
`get_embeddings`, plus a counter of handle constructions so that each
constructed handle has a distinct identity. -/
structure ProcessState where
  embeddingsCache : Option Nat
  constructed : Nat
deriving Repr, DecidableEq

/-- Embedding of `get_index` (_utils.py:16-18): the body constructs a new
Pinecone client and index handle on every call — it has no cache. -/
def getIndex (s : ProcessState) : Nat × ProcessState :=
  (s.constructed, { s with constructed := s.constructed + 1 })

/-- Embedding of `get_embeddings` (_utils.py:36-38): `@lru_cache` returns
the cached handle when present, otherwise constructs one and caches
it. -/
def getEmbeddings (s : ProcessState) : Nat × ProcessState :=
  match s.embeddingsCache with
  | some h => (h, s)
  | none =>
    (s.constructed,
      { embeddingsCache := some s.constructed,
        constructed := s.constructed + 1 })

/-- Rendering of langchain's `get_buffer_string` on the message log:
role-prefixed lines. Only its output string feeds the tokenizer; its
details do not matter to any claim. -/
def bufferString (msgs : List Message) : String :=
  String.intercalate "\n" (msgs.map (fun m => m.role ++ ": " ++ m.content))

/-- Query text the LoadMemories node derives (graph.py:290-292):
`tokenizer.decode(tokenizer.encode(convo_str)[:2048])`, with `enc`/`dec`
the tiktoken encoder and decoder. -/
def loadMemoriesQueryText (enc : String → List Nat) (dec : List Nat → String)
    (msgs : List Message) : String :=
  dec ((enc (bufferString msgs)).take 2048)

/-- Embedding of the `load_memories` node (graph.py:278-304): derive the
token-truncated query, fetch core memories and run the recall search
(with its default `top_k = 5`), and refresh the two memory slots;
`messages` is untouched. `none` models an exception raised by the core
fetch. -/
def loadMemories (enc : String → List Nat) (dec : List Nat → String)
    (rank : Ranking) (embed : String → List Rat) (vst : VectorStore)
    (uid : String) (s : AgentState) : Option AgentState :=
  match fetchCoreMemories vst uid with
  | none => none
  | some (_, core) =>
    some { s with
      core_memories := core,
      recall_memories :=
        (searchMemory rank embed vst uid
          (loadMemoriesQueryText enc dec s.messages) 5).1 }

/-- Effect of the Agent node on the state (graph.py:246-275, merged by
the `add_messages` reducer): the assistant's prediction `pred` — the
reasoning provider's output — is appended (or id-merged) into the log. -/
def agentApply (pred : Message) (s : AgentState) : AgentState :=
  { s with messages := addMessages s.messages [pred] }

/-- Effect of the Tools node (graph.py:326): each tool result message is
merged into the log via the reducer. -/
def toolApply (results : List Message) (s : AgentState) : AgentState :=
  { s with messages := addMessages s.messages results }

/-- States at which `route_tools` is evaluated under the graph's wiring
(graph.py:329-332): always the output of the Agent node, reached either
from `load_memories` or through the `tools → agent` loop edge. -/
inductive AtRouter (s0 : AgentState) : AgentState → Prop
  | start : ∀ enc dec rank embed vst uid pred s1,
      loadMemories enc dec rank embed vst uid s0 = some s1 →
      AtRouter s0 (agentApply pred s1)
  | loop : ∀ s results pred,
      AtRouter s0 s → routeTools s = some "tools" →
      AtRouter s0 (agentApply pred (toolApply results s))

/-- One reducer step never empties the log. -/
theorem addMessages_step_ne (left : List Message) (m : Message) :
    (if left.any (fun x => x.id = m.id) then
      left.map (fun x => if x.id = m.id then m else x)
    else left ++ [m]) ≠ [] := by
  cases left with
  | nil => simp
  | cons p tl => split_ifs <;> simp

/-- The reducer yields a nonempty log whenever either side is nonempty. -/
theorem addMessages_nonempty (right : List Message) :
    ∀ left : List Message, (left ≠ [] ∨ right ≠ []) →
      addMessages left right ≠ [] := by
  induction right with
  | nil =>
    intro left h
    simp only [addMessages, List.foldl_nil]
    exact h.resolve_right (fun hc => hc rfl)
  | cons m ms ih =>
    intro left _
    have hstep := addMessages_step_ne left m
    simpa [addMessages, List.foldl_cons] using
      ih _ (Or.inl (by simpa [addMessages] using hstep))

/-- Fetching the id just upserted returns the upserted record. -/
theorem fetchRecord_upsert_self (st : VectorStore) (id : String)
    (r : VRecord) : fetchRecord (upsertRecord st id r) id = some r := by
  unfold upsertRecord fetchRecord
  by_cases hany : st.any (fun p => p.1 = id)
  · rw [if_pos hany]
    induction st with
    | nil => simp at hany
    | cons p tl ih =>
      by_cases hp : p.1 = id
      · simp [List.find?, hp]
      · have htl : tl.any (fun p => p.1 = id) := by
          simpa [List.any_cons, hp] using hany
        simpa [List.find?, hp] using ih htl
  · rw [if_neg hany]
    have hnone : st.find? (fun p => decide (p.1 = id)) = none := by
      rw [List.find?_eq_none]
      intro p hp
      simp only [List.any_eq_true, not_exists, not_and] at hany
      simpa using hany p hp
    simp [List.find?_append, hnone, List.find?]

/-- Sample message carrying one tool-call request. -/
def msgTool : Message :=
  { id := "m1", role := "ai", content := "",
    tool_calls := [{ name := "search_memory", args := "q", callId := "c1" }] }

/-- Sample message with no tool-call request. -/
def msgPlain : Message :=
  { id := "m2", role := "ai", content := "hi", tool_calls := [] }

/-- Sample state whose last message carries a tool call. -/
def stateTool : AgentState :=
  { messages := [msgTool], core_memories := [], recall_memories := [] }

/-- Claim C5: `route_tools` returns `"tools"` exactly when the last
message carries one or more tool-call requests and `"__end__"` otherwise,
and it is a pure function of the last message: states with equal last
messages are routed identically whatever their memory slots or earlier
messages. -/
theorem c5_routeTools_spec (s : AgentState) (m : Message)
    (h : s.messages.getLast? = some m) :
    (routeTools s = some "tools" ↔ m.tool_calls ≠ []) ∧
    (routeTools s = some "__end__" ↔ m.tool_calls = []) ∧
    (∀ t : AgentState, t.messages.getLast? = s.messages.getLast? →
      routeTools t = routeTools s) := by
  refine ⟨?_, ?_, ?_⟩
  · by_cases hm : m.tool_calls = [] <;>
      simp [routeTools, h, List.isEmpty_iff, hm]
  · by_cases hm : m.tool_calls = [] <;>
      simp [routeTools, h, List.isEmpty_iff, hm]
  · intro t ht
    simp [routeTools, ht]

/-- Witness for C5 at a concrete state. -/
theorem c5_witness :
    (routeTools stateTool = some "tools" ↔ msgTool.tool_calls ≠ []) ∧
    (routeTools stateTool = some "__end__" ↔ msgTool.tool_calls = []) ∧
    (∀ t : AgentState, t.messages.getLast? = stateTool.messages.getLast? →
      routeTools t = routeTools stateTool) :=
  c5_routeTools_spec stateTool msgTool rfl

/-- Claim C9: for a user with no stored core-memory record, the fetch
returns the deterministic per-user key together with the empty list, and
does not fail. -/
theorem c9_fetchCore_absent_default (st : VectorStore) (uid : String)
    (h : fetchRecord st (PATCH_PATH uid) = none) :
    fetchCoreMemories st uid = some (PATCH_PATH uid, []) := by
  simp [fetchCoreMemories, h]

/-- Witness for C9 on the empty store. -/
theorem c9_witness :
    fetchRecord [] (PATCH_PATH "u1") = none ∧
    fetchCoreMemories [] "u1" = some (PATCH_PATH "u1", []) :=
  ⟨rfl, c9_fetchCore_absent_default [] "u1" rfl⟩

/-- Claim C10: `route_tools` is partial — it needs a nonempty message
log — but every state reaching the routing point under the graph's wiring
is an Agent-node output, whose reducer-merged prediction keeps the log
nonempty, so the last-element access is in bounds and routing is
defined. -/
theorem c10_router_messages_nonempty (s0 s : AgentState)
    (h : AtRouter s0 s) : s.messages ≠ [] ∧ (routeTools s).isSome := by
  have hmsg : s.messages ≠ [] := by
    induction h with
    | start enc dec rank embed vst uid pred s1 hload =>
      exact addMessages_nonempty [pred] s1.messages (Or.inr (by simp))
    | loop s results pred hat hroute ih =>
      exact addMessages_nonempty [pred] _ (Or.inr (by simp))
  refine ⟨hmsg, ?_⟩
  obtain ⟨m, hm⟩ : ∃ m, s.messages.getLast? = some m := by
    rw [← Option.isSome_iff_exists, List.getLast?_isSome]
    exact hmsg
  simp [routeTools, hm]

/-- Witness for C10 via a concrete start transition. -/
theorem c10_witness :
    (agentApply msgPlain
      { messages := [], core_memories := [], recall_memories := [] }).messages ≠ [] ∧
    (routeTools (agentApply msgPlain
      { messages := [], core_memories := [], recall_memories := [] })).isSome :=
  c10_router_messages_nonempty
    { messages := [], core_memories := [], recall_memories := [] } _
    (AtRouter.start (fun _ => []) (fun _ => "") (fun _ l => l) (fun _ => [])
      [] "u1" msgPlain
      { messages := [], core_memories := [], recall_memories := [] } rfl)

/-- Counterexample to claim C8 as stated: two `get_index` calls return
distinct handles and construct two clients — the source `get_index` has no
cache (`_utils.py:16-18`; only `get_embeddings` carries `@lru_cache`). -/
theorem c8_counterexample :
    (getIndex { embeddingsCache := none, constructed := 0 }).1 ≠
      (getIndex (getIndex
        { embeddingsCache := none, constructed := 0 }).2).1 ∧
    (getIndex (getIndex
      { embeddingsCache := none, constructed := 0 }).2).2.constructed = 2 := by
  decide

/-- Claim C8 amended: `get_index` constructs a fresh client handle on
every call (so repeated calls never return the same handle), while the
memoization the spec describes exists only on `get_embeddings`, whose
cached handle is returned unchanged — with no new construction — on every
later call. -/
theorem c8_memoization (s : ProcessState) :
    ((getIndex s).2.constructed = s.constructed + 1) ∧
    ((getIndex (getIndex s).2).1 ≠ (getIndex s).1) ∧
    ((getEmbeddings (getEmbeddings s).2).1 = (getEmbeddings s).1 ∧
      (getEmbeddings (getEmbeddings s).2).2 = (getEmbeddings s).2 ∧
      (getEmbeddings s).2.constructed ≤ s.constructed + 1) := by
  refine ⟨rfl, by simp [getIndex], ?_⟩
  cases hc : s.embeddingsCache with
  | none => simp [getEmbeddings, hc]
  | some h => simp [getEmbeddings, hc]

/-- Counterexample to claim C7 as stated: with `top_k = 0` (not a
positive integer) `search_memory` still issues its query, and with empty
memory text `save_recall_memory` still issues its upsert — neither
rejects the arguments before the backend operation. -/
theorem c7_counterexample :
    Effect.queryCall "u1" "recall" 0 ∈
      (searchMemory (fun _ l => l) (fun _ => []) [] "u1" "q" 0).2 ∧
    Effect.upsertCall (INSERT_PATH "u1" "e1") ∈
      (saveRecallMemory (fun _ => []) [] "u1" "e1" "" 0).2.2 ∧
    (searchMemory (fun _ l => l) (fun _ => []) [] "u1" "q" 0).1 = [] ∧
    (saveRecallMemory (fun _ => []) [] "u1" "e1" "" 0).1 = "" := by
  refine ⟨?_, ?_, rfl, rfl⟩
  · exact List.mem_cons_of_mem _ (List.mem_singleton.mpr rfl)
  · exact List.mem_cons_of_mem _ (List.mem_singleton.mpr rfl)

/-- Claim C7 amended: the memory tools perform no explicit argument
validation. Whatever the argument values — `top_k` zero or negative,
`memory` empty — `search_memory` issues its embedding call and its query
and returns the match payloads, and `save_recall_memory` issues its
embedding call and its upsert and returns the memory text. -/
theorem c7_no_validation (rank : Ranking) (embed : String → List Rat)
    (st : VectorStore) (uid q eid m : String) (k : Int) (now : Nat) :
    (searchMemory rank embed st uid q k).2 =
      [Effect.embedCall q, Effect.queryCall uid "recall" k] ∧
    (saveRecallMemory embed st uid eid m now).1 = m ∧
    (saveRecallMemory embed st uid eid m now).2.2 =
      [Effect.embedCall m, Effect.upsertCall (INSERT_PATH uid eid)] :=
  ⟨rfl, rfl, rfl⟩

/-- Claim C1 fails on the code: `store_core_memory` writes its record
with `TYPE_KEY: "recall"` (graph.py:175), so the core-memory record
satisfies exactly the `(user_id, type = "recall")` filter that
`search_memory` applies — the record kinds are not disjoint under the
type tag. Evaluated generally and at the concrete failing input. -/
theorem c1_core_record_satisfies_recall_filter :
    (∀ (uid : String) (ms : List String) (now : Nat),
      matchesFilter (searchFilter uid) (storeCoreRecord uid ms now).metadata = true) ∧
    storeCoreMemory [] "u1" "m1" none 0 =
      some ("Memory stored.",
        [(PATCH_PATH "u1", storeCoreRecord "u1" ["m1"] 0)],
        [Effect.fetchCall (PATCH_PATH "u1"),
          Effect.upsertCall (PATCH_PATH "u1")]) := by
  constructor
  · intro uid ms now
    exact decide_eq_true ⟨rfl, rfl⟩
  · rfl

/-- The key a successful core fetch returns is the deterministic per-user
key. -/
theorem fetchCore_path (st : VectorStore) (uid path : String)
    (mems : List String) (h : fetchCoreMemories st uid = some (path, mems)) :
    path = PATCH_PATH uid := by
  simp only [fetchCoreMemories] at h
  cases hf : fetchRecord st (PATCH_PATH uid) with
  | none =>
    rw [hf] at h
    simp only [Option.some.injEq, Prod.mk.injEq] at h
    exact h.1.symm
  | some doc =>
    rw [hf] at h
    dsimp only at h
    cases hp : parseMemoriesPayload doc.metadata.payload with
    | none => rw [hp] at h; cases h
    | some ms2 =>
      rw [hp] at h
      simp only [Option.some.injEq, Prod.mk.injEq] at h
      exact h.1.symm

/-- After `store_core_memory` writes a list, `fetch_core_memories` reads
it back: upsert/fetch agree on the key and the JSON blob round-trips. -/
theorem fetchCore_after_write (st : VectorStore) (uid : String)
    (ms : List String) (now : Nat) :
    fetchCoreMemories
      (upsertRecord st (PATCH_PATH uid) (storeCoreRecord uid ms now)) uid =
      some (PATCH_PATH uid, ms) := by
  have hp : (storeCoreRecord uid ms now).metadata.payload =
      dumpsMemories ms := rfl
  simp only [fetchCoreMemories, fetchRecord_upsert_self, hp,
    parseMemoriesPayload_dumps]

/-- Claim C3: `store_core_memory(m, index=i)` with `i` outside
`[0, len)` returns the error string, leaves the store untouched and
performs no upsert (its only backend call is the fetch); with `i` in
range it replaces slot `i` — what a subsequent fetch returns is the old
list with position `i` overwritten, of unchanged length. -/
theorem c3_storeCore_index_bounds (st : VectorStore) (uid m : String)
    (i : Int) (path : String) (mems : List String) (now : Nat)
    (h : fetchCoreMemories st uid = some (path, mems)) :
    ((i < 0 ∨ (mems.length : Int) ≤ i) →
      storeCoreMemory st uid m (some i) now =
        some ("Error: Index out of bounds.", st, [Effect.fetchCall path])) ∧
    (0 ≤ i → i < (mems.length : Int) →
      storeCoreMemory st uid m (some i) now =
        some ("Memory stored.",
          upsertRecord st path (storeCoreRecord uid (mems.set i.toNat m) now),
          [Effect.fetchCall path, Effect.upsertCall path]) ∧
      fetchCoreMemories
          (upsertRecord st path (storeCoreRecord uid (mems.set i.toNat m) now))
          uid =
        some (path, mems.set i.toNat m) ∧
      (mems.set i.toNat m).length = mems.length ∧
      (mems.set i.toNat m)[i.toNat]? = some m) := by
  have hpath := fetchCore_path st uid path mems h
  subst hpath
  constructor
  · intro hout
    simp [storeCoreMemory, h, hout]
  · intro h0 hlen
    have hcond : ¬(i < 0 ∨ (mems.length : Int) ≤ i) := by omega
    refine ⟨by simp [storeCoreMemory, h, hcond], fetchCore_after_write _ _ _ _,
      List.length_set mems i.toNat m, ?_⟩
    exact List.getElem?_set_self (by omega : i.toNat < mems.length)

/-- Sample store holding one core record with two memories. -/
def sampleStore : VectorStore :=
  [(PATCH_PATH "u1", storeCoreRecord "u1" ["a", "b"] 0)]

/-- Witness for C3 on the sample store, out of bounds and in range. -/
theorem c3_witness :
    (((5 : Int) < 0 ∨ ((["a", "b"].length : Int) ≤ 5)) →
      storeCoreMemory sampleStore "u1" "m" (some 5) 7 =
        some ("Error: Index out of bounds.", sampleStore,
          [Effect.fetchCall (PATCH_PATH "u1")])) ∧
    ((0 : Int) ≤ 0 → (0 : Int) < (["a", "b"].length : Int) →
      storeCoreMemory sampleStore "u1" "m" (some 0) 7 =
        some ("Memory stored.",
          upsertRecord sampleStore (PATCH_PATH "u1")
            (storeCoreRecord "u1" (["a", "b"].set (0 : Int).toNat "m") 7),
          [Effect.fetchCall (PATCH_PATH "u1"),
            Effect.upsertCall (PATCH_PATH "u1")]) ∧
      fetchCoreMemories
          (upsertRecord sampleStore (PATCH_PATH "u1")
            (storeCoreRecord "u1" (["a", "b"].set (0 : Int).toNat "m") 7)) "u1" =
        some (PATCH_PATH "u1", ["a", "b"].set (0 : Int).toNat "m") ∧
      (["a", "b"].set (0 : Int).toNat "m").length = ["a", "b"].length ∧
      (["a", "b"].set (0 : Int).toNat "m")[(0 : Int).toNat]? = some "m") :=
  ⟨(c3_storeCore_index_bounds sampleStore "u1" "m" 5 (PATCH_PATH "u1")
      ["a", "b"] 7 rfl).1,
   (c3_storeCore_index_bounds sampleStore "u1" "m" 0 (PATCH_PATH "u1")
      ["a", "b"] 7 rfl).2⟩

/-- Claim C4: `store_core_memory(m)` with no index prepends: a subsequent
fetch for the same user — across the JSON serialize/parse and
upsert/fetch round trip — returns a list whose head is `m` and whose
length is the previous length plus one. -/
theorem c4_storeCore_prepend_fetch (st : VectorStore) (uid m path : String)
    (mems : List String) (now : Nat)
    (h : fetchCoreMemories st uid = some (path, mems)) :
    storeCoreMemory st uid m none now =
      some ("Memory stored.",
        upsertRecord st path (storeCoreRecord uid (m :: mems) now),
        [Effect.fetchCall path, Effect.upsertCall path]) ∧
    fetchCoreMemories
        (upsertRecord st path (storeCoreRecord uid (m :: mems) now)) uid =
      some (path, m :: mems) ∧
    (m :: mems).head? = some m ∧
    (m :: mems).length = mems.length + 1 := by
  have hpath := fetchCore_path st uid path mems h
  subst hpath
  exact ⟨by simp [storeCoreMemory, h], fetchCore_after_write _ _ _ _, rfl, rfl⟩

/-- Witness for C4 on the sample store. -/
theorem c4_witness :
    storeCoreMemory sampleStore "u1" "m" none 7 =
      some ("Memory stored.",
        upsertRecord sampleStore (PATCH_PATH "u1")
          (storeCoreRecord "u1" ("m" :: ["a", "b"]) 7),
        [Effect.fetchCall (PATCH_PATH "u1"),
          Effect.upsertCall (PATCH_PATH "u1")]) ∧
    fetchCoreMemories
        (upsertRecord sampleStore (PATCH_PATH "u1")
          (storeCoreRecord "u1" ("m" :: ["a", "b"]) 7)) "u1" =
      some (PATCH_PATH "u1", "m" :: ["a", "b"]) ∧
    ("m" :: ["a", "b"]).head? = some "m" ∧
    ("m" :: ["a", "b"]).length = ["a", "b"].length + 1 :=
  c4_storeCore_prepend_fetch sampleStore "u1" "m" (PATCH_PATH "u1")
    ["a", "b"] 7 rfl

/-- Claim C6: every `search_memory` query is filtered by equality on the
calling user's id and the recall type tag; every `save_recall_memory`
write carries its owner's id; hence for distinct users A and B, no match
of B's search — over any store, any query text, any `top_k`, any backend
ranking that only selects among its candidates — is the record A saved. -/
theorem c6_recall_user_isolation (rank : Ranking)
    (hrank : SelectsFrom rank) (embed : String → List Rat)
    (st : VectorStore) (A B eid m q : String) (now : Nat) (k : Int)
    (hAB : A ≠ B) :
    (saveRecallRecord A eid m (embed m) now).metadata.user_id = A ∧
    (∀ p ∈ searchMemoryMatches rank embed
        ((saveRecallMemory embed st A eid m now).2.1) B q k,
      p.2.metadata.user_id = B ∧ p.2.metadata.type_ = "recall") ∧
    (∀ p ∈ searchMemoryMatches rank embed
        ((saveRecallMemory embed st A eid m now).2.1) B q k,
      p.2 ≠ saveRecallRecord A eid m (embed m) now) := by
  have hmem : ∀ p ∈ searchMemoryMatches rank embed
      ((saveRecallMemory embed st A eid m now).2.1) B q k,
      p.2.metadata.user_id = B ∧ p.2.metadata.type_ = "recall" := by
    intro p hp
    have h1 : p ∈ rank (embed q)
        (((saveRecallMemory embed st A eid m now).2.1).filter
          (fun p => matchesFilter (searchFilter B) p.2.metadata)) :=
      List.mem_of_mem_take hp
    have h2 := hrank _ _ _ h1
    have h3 := @List.of_mem_filter _
      (fun p : String × VRecord => matchesFilter (searchFilter B) p.2.metadata)
      p _ h2
    have h4 : matchesFilter (searchFilter B) p.2.metadata = true := h3
    exact of_decide_eq_true h4
  refine ⟨rfl, hmem, ?_⟩
  intro p hp hcontra
  have huser := (hmem p hp).1
  rw [hcontra] at huser
  exact hAB huser

/-- Witness for C6 with the identity ranking and two concrete users. -/
theorem c6_witness :
    (saveRecallRecord "a" "e1" "m" ((fun _ => []) "m") 0).metadata.user_id
      = "a" ∧
    (∀ p ∈ searchMemoryMatches (fun _ l => l) (fun _ => [])
        ((saveRecallMemory (fun _ => []) [] "a" "e1" "m" 0).2.1) "b" "q" 5,
      p.2.metadata.user_id = "b" ∧ p.2.metadata.type_ = "recall") ∧
    (∀ p ∈ searchMemoryMatches (fun _ l => l) (fun _ => [])
        ((saveRecallMemory (fun _ => []) [] "a" "e1" "m" 0).2.1) "b" "q" 5,
      p.2 ≠ saveRecallRecord "a" "e1" "m" ((fun _ => []) "m") 0) :=
  c6_recall_user_isolation (fun _ l => l) (fun _ _ _ hp => hp) (fun _ => [])
    [] "a" "b" "e1" "m" "q" 0 5 (by decide)

/-- The most recent `n` tokens of a token sequence: its length-`n` tail.
This is what the claim asserts the query is built from. -/
def lastTokens (n : Nat) (toks : List Nat) : List Nat :=
  toks.drop (toks.length - n)

/-- Concrete tokenizer encoder for the C2 counterexample: one token per
character (a valid, injective tokenizer). -/
def c2enc : String → List Nat := fun s => s.data.map Char.toNat

/-- Concrete tokenizer decoder paired with `c2enc`. -/
def c2dec : List Nat → String := fun l => String.mk (l.map Char.ofNat)

/-- Message whose buffer encodes to 2049 tokens: 2042 copies of `a`
followed by one `b`, behind the 6-character `user: ` prefix. -/
def c2msg : Message :=
  { id := "1", role := "user",
    content := String.mk (List.replicate 2042 'a' ++ ['b']),
    tool_calls := [] }

/-- Token stream of the counterexample buffer, decomposed. -/
theorem c2toks_eq : c2enc (bufferString [c2msg]) =
    "user: ".data.map Char.toNat ++ (List.replicate 2042 97 ++ [98]) := by
  have hbuf : bufferString [c2msg] =
      "user: " ++ String.mk (List.replicate 2042 'a' ++ ['b']) := rfl
  rw [hbuf]
  show (("user: " ++ String.mk (List.replicate 2042 'a' ++ ['b'])).data).map
      Char.toNat = _
  rw [String.data_append]
  show ("user: ".data ++ (List.replicate 2042 'a' ++ ['b'])).map Char.toNat = _
  rw [List.map_append, List.map_append, List.map_replicate]
  rfl

/-- Length of the encoded prefix. -/
theorem hA6 : ("user: ".data.map Char.toNat).length = 6 := by decide

/-- The counterexample buffer holds 2049 tokens. -/
theorem c2toks_len : (c2enc (bufferString [c2msg])).length = 2049 := by
  rw [c2toks_eq]
  simp only [List.length_append, List.length_replicate, List.length_cons,
    List.length_nil]
  decide

/-- The 2048-token head ends with token 97 (`a`). -/
theorem c2_left_elem :
    ((c2enc (bufferString [c2msg])).take 2048)[2047]? = some 97 := by
  rw [List.getElem?_take, if_pos (by norm_num), c2toks_eq,
    List.getElem?_append_right (by rw [hA6]; norm_num), hA6,
    List.getElem?_append]
  rw [List.length_replicate, if_pos (by norm_num),
    List.getElem?_replicate, if_pos (by norm_num)]

/-- The 2048-token tail ends with token 98 (`b`). -/
theorem c2_right_elem :
    (lastTokens 2048 (c2enc (bufferString [c2msg])))[2047]? = some 98 := by
  rw [lastTokens, c2toks_len]
  rw [List.getElem?_drop, c2toks_eq,
    List.getElem?_append_right (by rw [hA6]; norm_num), hA6,
    List.getElem?_append_right (by rw [List.length_replicate])]
  rw [List.length_replicate]
  decide

/-- Counterexample to claim C2 as stated: a conversation buffer of 2049
tokens for which the query text the LoadMemories node derives is not the
decoding of the most recent 2048 tokens — the code takes the first 2048
(`[:2048]`, graph.py:292), and head and tail differ at their last
character. -/
theorem c2_counterexample :
    2048 < (c2enc (bufferString [c2msg])).length ∧
    loadMemoriesQueryText c2enc c2dec [c2msg] ≠
      c2dec (lastTokens 2048 (c2enc (bufferString [c2msg]))) := by
  refine ⟨by rw [c2toks_len]; norm_num, ?_⟩
  intro heq
  rw [show loadMemoriesQueryText c2enc c2dec [c2msg] =
      c2dec ((c2enc (bufferString [c2msg])).take 2048) from rfl] at heq
  have hc2 : ∀ X : List Nat, (c2dec X).data = X.map Char.ofNat := fun _ => rfl
  have hdata := congrArg String.data heq
  rw [hc2, hc2] at hdata
  have h1 := congrArg (fun l : List Char => l[2047]?) hdata
  simp only [] at h1
  rw [List.getElem?_map, List.getElem?_map, c2_left_elem, c2_right_elem] at h1
  exact absurd h1 (by decide)

/-- Claim C2 amended: when the buffer encodes to more than 2048 tokens,
the query text the LoadMemories node hands to the recall search is the
decoding of the FIRST 2048 tokens of the buffer — a strict head, with a
nonempty remainder cut off the end. -/
theorem c2_loadMemories_query_head (enc : String → List Nat)
    (dec : List Nat → String) (rank : Ranking) (embed : String → List Rat)
    (vst : VectorStore) (uid : String) (s out : AgentState)
    (h : loadMemories enc dec rank embed vst uid s = some out)
    (hlong : 2048 < (enc (bufferString s.messages)).length) :
    ∃ rest, rest ≠ [] ∧
      enc (bufferString s.messages) =
        (enc (bufferString s.messages)).take 2048 ++ rest ∧
      ((enc (bufferString s.messages)).take 2048).length = 2048 ∧
      out.recall_memories =
        (searchMemory rank embed vst uid
          (dec ((enc (bufferString s.messages)).take 2048)) 5).1 := by
  refine ⟨(enc (bufferString s.messages)).drop 2048, ?_, ?_, ?_, ?_⟩
  · intro hnil
    have := congrArg List.length hnil
    rw [List.length_drop] at this
    simp at this
    omega
  · exact (List.take_append_drop 2048 _).symm
  · rw [List.length_take]
    omega
  · simp only [loadMemories] at h
    cases hf : fetchCoreMemories vst uid with
    | none => rw [hf] at h; cases h
    | some pr =>
      rw [hf] at h
      obtain ⟨path, core⟩ := pr
      have hout := Option.some.inj h
      rw [← hout]
      rfl

/-- Witness state for the amended C2. -/
def c2state : AgentState :=
  { messages := [c2msg], core_memories := [], recall_memories := [] }

/-- Witness for the amended C2 on the concrete 2049-token buffer. -/
theorem c2_witness :
    ∃ rest, rest ≠ [] ∧
      c2enc (bufferString c2state.messages) =
        (c2enc (bufferString c2state.messages)).take 2048 ++ rest ∧
      ((c2enc (bufferString c2state.messages)).take 2048).length = 2048 ∧
      c2state.recall_memories =
        (searchMemory (fun _ l => l) (fun _ => []) [] "u1"
          (c2dec ((c2enc (bufferString c2state.messages)).take 2048)) 5).1 :=
  c2_loadMemories_query_head c2enc c2dec (fun _ l => l) (fun _ => [])
    [] "u1" c2state c2state rfl (by rw [show bufferString c2state.messages =
      bufferString [c2msg] from rfl, c2toks_len]; norm_num)

end LangMemGpt
